import Mathlib

/-!
Verification of `TeacherObservations.py`: a shallow embedding of the header
parser (`parse_categories`), the observation loader (`TeacherObservation.parse`)
and the agreement engine (`compare_teacher_evals`), together with theorems
settling the specification's claims about them.

Python dictionaries (`OrderedDict`, `defaultdict`) are modelled as association
lists keyed by `String`, preserving insertion order.  Fallible Python code
(assertions, `KeyError`, `IndexError`, `StopIteration`, `ZeroDivisionError`)
is modelled with `Except`.  Python float arithmetic on the small percentage
values is modelled with exact rationals.
-/

/-- Errors raised while loading a file: `StopIteration` from `reader.next()`,
`KeyError` from `del categories['Time']` or `self.results[category]`,
`IndexError` from `line[i]`, and the header-length `assert`. -/
inductive PErr where
  | stopIteration
  | keyError
  | indexError
  | assertLen
  deriving DecidableEq, Repr

instance {ε α : Type} [DecidableEq ε] [DecidableEq α] : DecidableEq (Except ε α) := fun a b =>
  match a, b with
  | .error e, .error e' =>
    if h : e = e' then .isTrue (by rw [h]) else .isFalse (by intro hh; cases hh; exact h rfl)
  | .ok x, .ok y =>
    if h : x = y then .isTrue (by rw [h]) else .isFalse (by intro hh; cases hh; exact h rfl)
  | .error _, .ok _ => .isFalse (by intro hh; cases hh)
  | .ok _, .error _ => .isFalse (by intro hh; cases hh)

/-- First-match lookup in an association list, the semantics of Python
dictionary access `d[k]` (dict keys are unique, so first match is the match). -/
def alookup {α : Type} : List (String × α) → String → Option α
  | [], _ => none
  | (k', v) :: rest, k => if k' = k then some v else alookup rest k

/-- The forward fill of the broad-category header row
(`TeacherObservations.py` lines 77-81): a running `last_category`, initialized
to the sentinel `'Time'`, is updated at each non-empty cell and recorded at
every position. -/
def forwardFill : String → List String → List String
  | _, [] => []
  | last, c :: cs =>
    let l := if c = "" then last else c
    l :: forwardFill l cs

/-- `categories.setdefault(broad_category, []); categories[broad_category].append(code)`
(lines 85-86) on an ordered association list: append the value to an existing
key's list, or add the key at the end with a singleton list. -/
def setdefaultAppend : List (String × List String) → String → String → List (String × List String)
  | [], k, v => [(k, [v])]
  | (k', vs) :: rest, k, v =>
    if k' = k then (k', vs ++ [v]) :: rest
    else (k', vs) :: setdefaultAppend rest k v

/-- The loop of lines 82-86: walk the (filled broad label, fine code) pairs,
skipping any pair whose broad label starts with `'Comment'`, and insert the
rest with `setdefault`/`append`. -/
def buildCats : List (String × List String) → List (String × String) → List (String × List String)
  | cats, [] => cats
  | cats, (b, f) :: rest =>
    if b.startsWith "Comment" then buildCats cats rest
    else buildCats (setdefaultAppend cats b f) rest

/-- `del categories['Time']` (line 87): remove the entry, or raise `KeyError`
if the key is absent. -/
def removeKey : List (String × List String) → String → Except PErr (List (String × List String))
  | [], _ => .error .keyError
  | (k', vs) :: rest, k =>
    if k' = k then .ok rest
    else (removeKey rest k).map (fun r => (k', vs) :: r)

/-- `TeacherObservation.parse_categories` (lines 48-88): assert equal header
lengths, forward-fill the broad row from the sentinel `'Time'`, group the fine
codes under their broad labels dropping `'Comment'`-prefixed columns, and
delete the `'Time'` entry. -/
def parse_categories (hb hf : List String) : Except PErr (List (String × List String)) :=
  if hb.length = hf.length then
    removeKey (buildCats [] ((forwardFill "Time" hb).zip hf)) "Time"
  else .error .assertLen

/-- The per-category results dictionary built by `parse`: for each category, a
`defaultdict(list)` from observation code to the list of 0/1 flags. -/
abbrev ResultsMap := List (String × List (String × List Nat))

/-- A parsed teacher observation: the schema (`self.categories`), the time
labels (`self.times`) and the per-category per-code flag lists (`self.results`). -/
structure TeacherObs where
  categories : List (String × List String)
  times : List String
  results : ResultsMap
  deriving DecidableEq, Repr

/-- The flag list stored for category `c` and code `o`: `results[c][o]`, where
a missing entry reads as the empty list (the `defaultdict(list)` default). -/
def getRes (res : ResultsMap) (c o : String) : List Nat :=
  (alookup ((alookup res c).getD []) o).getD []

/-- `defaultdict(list)` access-and-append on the inner dictionary:
`d[k].append(v)` creates `d[k] = []` first when `k` is absent. -/
def updAppend : List (String × List Nat) → String → Nat → List (String × List Nat)
  | [], k, v => [(k, [v])]
  | (k', vs) :: rest, k, v =>
    if k' = k then (k', vs ++ [v]) :: rest
    else (k', vs) :: updAppend rest k v

/-- `self.results[category][observation].append(value)` (line 141): the outer
dictionary is a plain dict, so a missing category raises `KeyError`; the inner
`defaultdict(list)` appends. -/
def outerUpd : ResultsMap → String → String → Nat → Except PErr ResultsMap
  | [], _, _, _ => .error .keyError
  | (c', d) :: rest, c, o, v =>
    if c' = c then .ok ((c', updAppend d o v) :: rest)
    else (outerUpd rest c o v).map (fun r => (c', d) :: r)

/-- Lines 136-139: a blank or whitespace-only cell is flag 0, anything else
is flag 1. -/
def flagOf (s : String) : Nat := if s.trim = "" then 0 else 1

/-- Line 123: `time_block.split('-')[0].strip()`. -/
def normTime (t : String) : String := ((t.splitOn "-").headD "").trim

/-- The category/code pairs in schema order; walking this list with a running
column position embeds the nested loops of lines 131-143. -/
def flatCodes : List (String × List String) → List (String × String)
  | [] => []
  | (c, codes) :: rest => codes.map (fun o => (c, o)) ++ flatCodes rest

/-- Lines 128-143: consume one cell per category/code pair, starting at
column 1; a missing cell is an `IndexError`. -/
def processRow (codes : List (String × String)) (line : List String) (pos : Nat)
    (res : ResultsMap) : Except PErr ResultsMap :=
  match codes with
  | [] => .ok res
  | (c, o) :: rest =>
    match line.get? pos with
    | none => .error .indexError
    | some v =>
      match outerUpd res c o (flagOf v) with
      | .error e => .error e
      | .ok res' => processRow rest line (pos + 1) res'

/-- Lines 116-143: per data row, read the leading time-block cell (missing cell
is an `IndexError`), skip the row if it is empty, otherwise record the
normalized time label and the row's flags. -/
def parseData (codes : List (String × String)) :
    List (List String) → List String → ResultsMap → Except PErr (List String × ResultsMap)
  | [], times, res => .ok (times, res)
  | line :: rest, times, res =>
    match line.head? with
    | none => .error .indexError
    | some t =>
      if t = "" then parseData codes rest times res
      else
        match processRow codes line 1 res with
        | .error e => .error e
        | .ok res' => parseData codes rest (times ++ [normTime t]) res'

/-- `TeacherObservation.parse` (lines 93-143) on the already-split rows of the
file: discard the title row, parse the two header rows into the schema,
initialize an empty results dictionary per (non-empty-named) category, then
load the data rows.  Fewer than three rows raise `StopIteration` at
`reader.next()`. -/
def parse (rows : List (List String)) : Except PErr TeacherObs :=
  match rows with
  | _ :: hb :: hf :: data =>
    match parse_categories hb hf with
    | .error e => .error e
    | .ok cats =>
      let res0 : ResultsMap :=
        (cats.filter (fun p => p.1 ≠ "")).map (fun p => (p.1, []))
      match parseData (flatCodes cats) data [] res0 with
      | .error e => .error e
      | .ok (times, res) => .ok ⟨cats, times, res⟩
  | _ => .error .stopIteration

/-- Lockstep count of index positions satisfying a predicate on the pair of
flags, the shape of the comprehensions at lines 209-212. -/
def pairCount (p : Nat → Nat → Bool) : List Nat → List Nat → Nat
  | x :: xs, y :: ys => (if p x y then 1 else 0) + pairCount p xs ys
  | _, _ => 0

/-- Line 209: positions flagged by both raters. -/
def both_match (r1 r2 : List Nat) : Nat := pairCount (fun x y => x == 1 && y == 1) r1 r2

/-- Line 210: positions flagged by neither rater. -/
def neither_match (r1 r2 : List Nat) : Nat := pairCount (fun x y => x == 0 && y == 0) r1 r2

/-- Line 211: positions flagged only by the first rater. -/
def first_only (r1 r2 : List Nat) : Nat := pairCount (fun x y => x == 1 && y == 0) r1 r2

/-- Line 212: positions flagged only by the second rater. -/
def second_only (r1 r2 : List Nat) : Nat := pairCount (fun x y => x == 0 && y == 1) r1 r2

/-- `zip(*observations)` (line 152): the list of columns, truncated to the
shortest row, empty when there are no rows. -/
def zipStar (ls : List (List Nat)) : List (List Nat) :=
  match ls with
  | [] => []
  | l :: rest =>
    (List.range (rest.foldl (fun m x => min m x.length) l.length)).map
      (fun i => ls.map (fun x => x.getD i 0))

/-- `count_filled_time_intervals` (lines 146-155): the number of time columns
in which at least one observation is flagged. -/
def count_filled_time_intervals (observations : List (List Nat)) : Nat :=
  ((zipStar observations).filter (fun col => col.any (fun x => x != 0))).length

/-- The `Counter` of lines 195 and 215-218, restricted to the four keys the
code ever touches. -/
structure Tally where
  both : Nat
  neither : Nat
  first : Nat
  second : Nat
  deriving DecidableEq, Repr

/-- Errors raised by `compare_teacher_evals`: the two precondition assertions
(each carrying both operands, as the Python assertion messages interpolate
both matrices' categories resp. times), and `ZeroDivisionError` from the
percentage computations. -/
inductive CmpErr where
  | categoriesMismatch (c1 c2 : List (String × List String))
  | timesMismatch (t1 t2 : List String)
  | zeroDivision
  deriving DecidableEq, Repr

/-- One line of the per-code output of lines 204-233: the code, its four
bucket counts, and the overlap percentage of lines 220-227. -/
structure CodeLine where
  code : String
  both : Nat
  neither : Nat
  firstOnly : Nat
  secondOnly : Nat
  overlap : ℚ
  deriving DecidableEq, Repr

/-- `eval_total_counts` (lines 199-200): the sum of all flags over all stored
codes of one category's results dictionary. -/
def catTotal (res : ResultsMap) (c : String) : Nat :=
  (((alookup res c).getD []).map (fun q => q.2.sum)).sum

/-- The values of lines 206-232 for one observation code, assuming the
category totals are non-zero: bucket counts, and the overlap percentage
`min(100*sum(r1)/t1, 100*sum(r2)/t2)` written as the code's comparison. -/
def mkCodeLine (e1 e2 : TeacherObs) (c : String) (t1 t2 : Nat) (o : String) : CodeLine :=
  let r1 := getRes e1.results c o
  let r2 := getRes e2.results c o
  let e1c : ℚ := 100 * (r1.sum : ℚ) / (t1 : ℚ)
  let e2c : ℚ := 100 * (r2.sum : ℚ) / (t2 : ℚ)
  { code := o
    both := both_match r1 r2
    neither := neither_match r1 r2
    firstOnly := first_only r1 r2
    secondOnly := second_only r1 r2
    overlap := if e1c < e2c then e1c else e2c }

/-- The body of the inner loop of lines 204-233 for one code: the divisions of
lines 220-221 raise `ZeroDivisionError` when a category total is zero. -/
def processCode (e1 e2 : TeacherObs) (c : String) (t1 t2 : Nat) (o : String) :
    Except CmpErr CodeLine :=
  if t1 = 0 ∨ t2 = 0 then .error .zeroDivision
  else .ok (mkCodeLine e1 e2 c t1 t2 o)

/-- Monadic map over `Except`, the effect of running a loop body that can
raise, collecting the per-iteration values. -/
def exceptMap {α β ε : Type} (f : α → Except ε β) : List α → Except ε (List β)
  | [] => .ok []
  | a :: as =>
    match f a with
    | .error e => .error e
    | .ok b =>
      match exceptMap f as with
      | .error e => .error e
      | .ok bs => .ok (b :: bs)

/-- The body of the outer loop of lines 198-234 for one category: compute both
raters' category totals, then score every code of the category. -/
def processCategory (e1 e2 : TeacherObs) (p : String × List String) :
    Except CmpErr (String × List CodeLine) :=
  (exceptMap
      (processCode e1 e2 p.1 (catTotal e1.results p.1) (catTotal e2.results p.1))
      p.2).map (fun cls => (p.1, cls))

/-- The global `Counter` accumulated at lines 215-218: per key, the sum of the
per-code bucket counts over all categories. -/
def tallyOfLines (lines : List (String × List CodeLine)) : Tally where
  both := (lines.map (fun q => (q.2.map (fun cl => cl.both)).sum)).sum
  neither := (lines.map (fun q => (q.2.map (fun cl => cl.neither)).sum)).sum
  first := (lines.map (fun q => (q.2.map (fun cl => cl.firstOnly)).sum)).sum
  second := (lines.map (fun q => (q.2.map (fun cl => cl.secondOnly)).sum)).sum

/-- `category_results` (lines 196, 233): a `defaultdict(list)` receiving each
code's `both_match` count, keyed by category, in iteration order. -/
def categoryResultsOfLines (lines : List (String × List CodeLine)) : List (String × List Nat) :=
  lines.foldl (fun acc q => q.2.foldl (fun acc2 cl => updAppend acc2 q.1 cl.both) acc) []

/-- The observable outcome of a successful `compare_teacher_evals` call: the
returned triple `(cnt, category_results, total_time_count)` plus the per-code
lines printed at line 232. -/
structure CompareResult where
  cnt : Tally
  category_results : List (String × List Nat)
  total_time_count : Nat
  lines : List (String × List CodeLine)
  deriving DecidableEq, Repr

/-- Lines 170-188: each rater's filled time-block count over all stored flag
lists, and `total_time_count`, their maximum. -/
def ttcOf (e1 e2 : TeacherObs) : Nat :=
  let c1 := count_filled_time_intervals ((e1.results.map (fun p => p.2.map Prod.snd)).flatten)
  let c2 := count_filled_time_intervals ((e2.results.map (fun p => p.2.map Prod.snd)).flatten)
  if c1 > c2 then c1 else c2

/-- `compare_teacher_evals` (lines 158-247): assert equal categories and equal
times (each failure reporting both operands), compute both raters' filled
time-block counts and their maximum, score every category and code, and build
the global tally; the final percent-agreement report (line 246) divides by the
tally total and raises `ZeroDivisionError` when it is zero. -/
def compare_teacher_evals (e1 e2 : TeacherObs) : Except CmpErr CompareResult :=
  if e1.categories = e2.categories then
    if e1.times = e2.times then
      match exceptMap (processCategory e1 e2) e1.categories with
      | .error e => .error e
      | .ok lines =>
        let cnt := tallyOfLines lines
        if cnt.both + cnt.neither + cnt.first + cnt.second = 0 then .error .zeroDivision
        else .ok ⟨cnt, categoryResultsOfLines lines, ttcOf e1 e2, lines⟩
    else .error (.timesMismatch e1.times e2.times)
  else .error (.categoriesMismatch e1.categories e2.categories)

/-- The reporting derivation of line 246: global percent agreement
`100*(both+neither)/total`. -/
def agreementPercent (t : Tally) : ℚ :=
  100 * ((t.both : ℚ) + t.neither) / ((t.both : ℚ) + t.neither + t.first + t.second)

/-- An observation matrix satisfying the data-model invariants the loader
establishes: every flag list has the length of the time sequence and contains
only flags 0 and 1. -/
def WF (e : TeacherObs) : Prop :=
  ∀ p ∈ e.categories, ∀ o ∈ p.2,
    (getRes e.results p.1 o).length = e.times.length ∧
    ∀ x ∈ getRes e.results p.1 o, x = 0 ∨ x = 1

instance : DecidablePred WF := fun e => by
  unfold WF; infer_instance

/-- The tally obtained by summing the four pair counts over all categories and
codes of the first matrix's schema, with no category excluded. -/
def globalTally (e1 e2 : TeacherObs) : Tally where
  both := ((flatCodes e1.categories).map
    (fun q => both_match (getRes e1.results q.1 q.2) (getRes e2.results q.1 q.2))).sum
  neither := ((flatCodes e1.categories).map
    (fun q => neither_match (getRes e1.results q.1 q.2) (getRes e2.results q.1 q.2))).sum
  first := ((flatCodes e1.categories).map
    (fun q => first_only (getRes e1.results q.1 q.2) (getRes e2.results q.1 q.2))).sum
  second := ((flatCodes e1.categories).map
    (fun q => second_only (getRes e1.results q.1 q.2) (getRes e2.results q.1 q.2))).sum

/-- Swap of the two raters' roles in a per-code line: the first-only and
second-only bucket counts exchange, the rest is unchanged. -/
def swapLine (cl : CodeLine) : CodeLine :=
  { cl with firstOnly := cl.secondOnly, secondOnly := cl.firstOnly }

/-- The per-category per-code lines `compare_teacher_evals` produces when no
error is raised. -/
def linesOf (e1 e2 : TeacherObs) : List (String × List CodeLine) :=
  e1.categories.map (fun p => (p.1, p.2.map
    (fun o => mkCodeLine e1 e2 p.1 (catTotal e1.results p.1) (catTotal e2.results p.1) o)))

/-- First rater of the specification's worked scenario: one category `X` with
one code `a`, flags `[1,0]` over two time blocks. -/
def exA : TeacherObs := ⟨[("X", ["a"])], ["1", "2"], [("X", [("a", [1, 0])])]⟩

/-- Second rater of the specification's worked scenario: flags `[1,1]`. -/
def exB : TeacherObs := ⟨[("X", ["a"])], ["1", "2"], [("X", [("a", [1, 1])])]⟩

/-- The comparison outcome for `exA` versus `exB`. -/
def RESab : CompareResult :=
  ⟨⟨1, 0, 0, 1⟩, [("X", [1])], 2, [("X", [⟨"a", 1, 0, 0, 1, 100⟩])]⟩

/-- A matrix whose only category is named `3. Engagement`, with one code
flagged at the single time block. -/
def engA : TeacherObs :=
  ⟨[("3. Engagement", ["L"])], ["1"], [("3. Engagement", [("L", [1])])]⟩

/-- The comparison outcome for `engA` against itself. -/
def RESeng : CompareResult :=
  ⟨⟨1, 0, 0, 0⟩, [("3. Engagement", [1])], 1, [("3. Engagement", [⟨"L", 1, 0, 0, 0, 100⟩])]⟩

/-- A rater whose category `X` has a zero total flag count. -/
def zA : TeacherObs := ⟨[("X", ["a"])], ["1", "2"], [("X", [("a", [0, 0])])]⟩

/-- A rater comparable to `zA` with a non-zero total. -/
def zB : TeacherObs := ⟨[("X", ["a"])], ["1", "2"], [("X", [("a", [1, 0])])]⟩

/-- The fine-row codes that belong to broad label `k`: the non-comment columns
whose forward-filled label equals `k`, in original column order. -/
def selCodes (pairs : List (String × String)) (k : String) : List String :=
  (pairs.filter (fun p => !(p.1.startsWith "Comment") && p.1 == k)).map Prod.snd

/-- Appending freshly selected codes to an optional existing entry, the net
effect of a run of `setdefault`/`append` calls for one key. -/
def combineSel : Option (List String) → List String → Option (List String)
  | some vs, l => some (vs ++ l)
  | none, [] => none
  | none, l => some l

theorem bucket_partition : ∀ (r1 r2 : List Nat), r1.length = r2.length →
    (∀ x ∈ r1, x = 0 ∨ x = 1) → (∀ y ∈ r2, y = 0 ∨ y = 1) →
    both_match r1 r2 + neither_match r1 r2 + first_only r1 r2 + second_only r1 r2 = r1.length := by
  intro r1
  induction r1 with
  | nil =>
    intro r2 _ _ _
    simp [both_match, neither_match, first_only, second_only, pairCount]
  | cons x xs ih =>
    intro r2 hlen hx hy
    cases r2 with
    | nil => simp at hlen
    | cons y ys =>
      have hx' : ∀ a ∈ xs, a = 0 ∨ a = 1 := fun a ha => hx a (List.mem_cons_of_mem _ ha)
      have hy' : ∀ a ∈ ys, a = 0 ∨ a = 1 := fun a ha => hy a (List.mem_cons_of_mem _ ha)
      have hlen' : xs.length = ys.length := by simpa using hlen
      have hrec := ih ys hlen' hx' hy'
      simp only [both_match, neither_match, first_only, second_only, pairCount] at hrec ⊢
      rcases hx x (List.mem_cons_self x xs) with h1 | h1 <;>
        rcases hy y (List.mem_cons_self y ys) with h2 | h2 <;>
          subst h1 <;> subst h2 <;> simp <;> omega

theorem pairCount_flip (p : Nat → Nat → Bool) :
    ∀ (xs ys : List Nat), pairCount p xs ys = pairCount (fun a b => p b a) ys xs := by
  intro xs
  induction xs with
  | nil => intro ys; cases ys <;> simp [pairCount]
  | cons x xs ih => intro ys; cases ys <;> simp [pairCount, ih]

theorem both_match_comm (r1 r2 : List Nat) : both_match r2 r1 = both_match r1 r2 := by
  unfold both_match
  rw [pairCount_flip]
  congr 1
  funext a b
  rw [Bool.and_comm]

theorem neither_match_comm (r1 r2 : List Nat) : neither_match r2 r1 = neither_match r1 r2 := by
  unfold neither_match
  rw [pairCount_flip]
  congr 1
  funext a b
  rw [Bool.and_comm]

theorem first_only_swap (r1 r2 : List Nat) : first_only r2 r1 = second_only r1 r2 := by
  unfold first_only second_only
  rw [pairCount_flip]
  congr 1
  funext a b
  rw [Bool.and_comm]

theorem second_only_swap (r1 r2 : List Nat) : second_only r2 r1 = first_only r1 r2 :=
  (first_only_swap r2 r1).symm

theorem exceptMap_ok_eq_map {α β ε : Type} (f : α → Except ε β) (g : α → β)
    (hfg : ∀ a b, f a = .ok b → b = g a) :
    ∀ (l : List α) (l' : List β), exceptMap f l = .ok l' → l' = l.map g := by
  intro l
  induction l with
  | nil =>
    intro l' h
    simp only [exceptMap] at h
    cases h
    rfl
  | cons a as ih =>
    intro l' h
    cases hfa : f a with
    | error e => rw [exceptMap, hfa] at h; cases h
    | ok b =>
      cases hrest : exceptMap f as with
      | error e => rw [exceptMap, hfa, hrest] at h; cases h
      | ok bs =>
        rw [exceptMap, hfa, hrest] at h
        cases h
        simp only [List.map]
        exact congrArg₂ _ (hfg a b hfa) (ih bs hrest)

theorem exceptMap_map_rel {α β γ ε : Type} (f₁ : α → Except ε β) (f₂ : α → Except ε γ)
    (h : β → γ) (hrel : ∀ a, f₂ a = (f₁ a).map h) :
    ∀ l : List α, exceptMap f₂ l = (exceptMap f₁ l).map (List.map h) := by
  intro l
  induction l with
  | nil => simp [exceptMap, Except.map]
  | cons a as ih =>
    cases hfa : f₁ a with
    | error e => simp [exceptMap, hrel a, hfa, Except.map]
    | ok b =>
      cases hrest : exceptMap f₁ as with
      | error e => simp [exceptMap, hrel a, hfa, hrest, ih, Except.map]
      | ok bs => simp [exceptMap, hrel a, hfa, hrest, ih, Except.map]

theorem if_lt_eq_min (a b : ℚ) : (if a < b then a else b) = min a b := by
  by_cases h : a < b
  · rw [if_pos h, min_eq_left h.le]
  · rw [if_neg h, min_eq_right (le_of_not_lt h)]

theorem processCode_ok (e1 e2 : TeacherObs) (c : String) (t1 t2 : Nat) (o : String)
    (cl : CodeLine) (h : processCode e1 e2 c t1 t2 o = .ok cl) :
    cl = mkCodeLine e1 e2 c t1 t2 o := by
  unfold processCode at h
  split at h
  · cases h
  · cases h; rfl

theorem processCategory_ok (e1 e2 : TeacherObs) (p : String × List String)
    (q : String × List CodeLine) (h : processCategory e1 e2 p = .ok q) :
    q = (p.1, p.2.map
      (fun o => mkCodeLine e1 e2 p.1 (catTotal e1.results p.1) (catTotal e2.results p.1) o)) := by
  unfold processCategory at h
  cases hm : exceptMap
      (processCode e1 e2 p.1 (catTotal e1.results p.1) (catTotal e2.results p.1)) p.2 with
  | error e => rw [hm] at h; cases h
  | ok cls =>
    rw [hm] at h
    cases h
    have := exceptMap_ok_eq_map
      (processCode e1 e2 p.1 (catTotal e1.results p.1) (catTotal e2.results p.1))
      (fun o => mkCodeLine e1 e2 p.1 (catTotal e1.results p.1) (catTotal e2.results p.1) o)
      (fun o cl hcl => processCode_ok e1 e2 p.1 _ _ o cl hcl) p.2 cls hm
    rw [this]

theorem compare_ok_spec (e1 e2 : TeacherObs) (r : CompareResult)
    (hok : compare_teacher_evals e1 e2 = .ok r) :
    e1.categories = e2.categories ∧ e1.times = e2.times ∧
    exceptMap (processCategory e1 e2) e1.categories = .ok r.lines ∧
    r.lines = linesOf e1 e2 ∧ r.cnt = tallyOfLines r.lines ∧
    r.cnt.both + r.cnt.neither + r.cnt.first + r.cnt.second ≠ 0 := by
  by_cases hc : e1.categories = e2.categories
  · by_cases ht : e1.times = e2.times
    · simp only [compare_teacher_evals, if_pos hc, if_pos ht] at hok
      split at hok
      · cases hok
      · rename_i lines heq
        split at hok
        · cases hok
        · rename_i hz
          cases hok
          refine ⟨hc, ht, heq, ?_, rfl, hz⟩
          exact exceptMap_ok_eq_map (processCategory e1 e2) _
            (fun p q hq => processCategory_ok e1 e2 p q hq) e1.categories lines heq
    · simp only [compare_teacher_evals, if_pos hc, if_neg ht] at hok
      cases hok
  · simp only [compare_teacher_evals, if_neg hc] at hok
    cases hok

theorem sum_flatCodes (f : String × String → Nat) :
    ∀ cats : List (String × List String),
      ((flatCodes cats).map f).sum =
        (cats.map (fun p => (p.2.map (fun o => f (p.1, o))).sum)).sum := by
  intro cats
  induction cats with
  | nil => rfl
  | cons p rest ih =>
    cases p with
    | mk c codes =>
      simp only [flatCodes, List.map_append, List.sum_append, List.map_map, ih]
      rfl

theorem tallyOfLines_linesOf (e1 e2 : TeacherObs) :
    tallyOfLines (linesOf e1 e2) = globalTally e1 e2 := by
  unfold tallyOfLines linesOf globalTally
  congr 1 <;> rw [sum_flatCodes] <;>
    simp [List.map_map, Function.comp_def, mkCodeLine]

theorem mkCodeLine_swap (e1 e2 : TeacherObs) (c : String) (t1 t2 : Nat) (o : String) :
    mkCodeLine e2 e1 c t2 t1 o = swapLine (mkCodeLine e1 e2 c t1 t2 o) := by
  simp only [mkCodeLine, swapLine, CodeLine.mk.injEq]
  refine ⟨trivial, both_match_comm _ _, neither_match_comm _ _,
    first_only_swap _ _, second_only_swap _ _, ?_⟩
  rw [if_lt_eq_min, if_lt_eq_min]
  exact min_comm _ _

theorem processCode_swap (e1 e2 : TeacherObs) (c : String) (t1 t2 : Nat) (o : String) :
    processCode e2 e1 c t2 t1 o = (processCode e1 e2 c t1 t2 o).map swapLine := by
  unfold processCode
  by_cases h : t1 = 0 ∨ t2 = 0
  · rw [if_pos h.symm, if_pos h]; rfl
  · have h' : ¬(t2 = 0 ∨ t1 = 0) := fun hh => h hh.symm
    rw [if_neg h', if_neg h, mkCodeLine_swap]; rfl

theorem processCategory_swap (e1 e2 : TeacherObs) (p : String × List String) :
    processCategory e2 e1 p =
      (processCategory e1 e2 p).map (fun q => (q.1, q.2.map swapLine)) := by
  unfold processCategory
  rw [exceptMap_map_rel
      (processCode e1 e2 p.1 (catTotal e1.results p.1) (catTotal e2.results p.1))
      (processCode e2 e1 p.1 (catTotal e2.results p.1) (catTotal e1.results p.1))
      swapLine (fun o => processCode_swap e1 e2 p.1 _ _ o) p.2]
  cases exceptMap
    (processCode e1 e2 p.1 (catTotal e1.results p.1) (catTotal e2.results p.1)) p.2 <;> rfl

theorem tallyOfLines_swap (lines : List (String × List CodeLine)) :
    tallyOfLines (lines.map (fun q => (q.1, q.2.map swapLine))) =
      ⟨(tallyOfLines lines).both, (tallyOfLines lines).neither,
        (tallyOfLines lines).second, (tallyOfLines lines).first⟩ := by
  unfold tallyOfLines
  simp [List.map_map, Function.comp_def, swapLine]

theorem compare_eval (e1 e2 : TeacherObs) (lines : List (String × List CodeLine))
    (hc : e1.categories = e2.categories) (ht : e1.times = e2.times)
    (hm : exceptMap (processCategory e1 e2) e1.categories = .ok lines)
    (hz : ¬((tallyOfLines lines).both + (tallyOfLines lines).neither +
      (tallyOfLines lines).first + (tallyOfLines lines).second = 0)) :
    compare_teacher_evals e1 e2 =
      .ok ⟨tallyOfLines lines, categoryResultsOfLines lines, ttcOf e1 e2, lines⟩ := by
  simp only [compare_teacher_evals, if_pos hc, if_pos ht]
  split
  · rename_i e heq
    rw [hm] at heq
    cases heq
  · rename_i lines' heq
    rw [hm] at heq
    cases heq
    rw [if_neg hz]

/-- Claim C1, counterexample: a pair of comparable matrices whose only
category is named `3. Engagement` (whose lower-cased name visibly contains the
substring `engagement`); its code `L`, flagged by both raters at the one time
block, contributes 1 to the global `both` count, so the category is not
excluded from agreement scoring. -/
theorem claim1_counterexample :
    engA.categories = [("3. Engagement", ["L"])] ∧
    "3. Engagement".toLower = "3. engagement" ∧
    compare_teacher_evals engA engA = .ok RESeng ∧
    RESeng.cnt.both = 1 :=
  ⟨rfl, by with_unfolding_all rfl, by with_unfolding_all rfl, rfl⟩

/-- Claim C1, amended: `compare_teacher_evals` excludes no category at all.
The global tally of every successful comparison is the sum of the four bucket
counts over all categories and codes of the schema, and the produced per-code
lines cover every category, Engagement-named ones included. -/
theorem claim1_theorem (e1 e2 : TeacherObs) (r : CompareResult)
    (hok : compare_teacher_evals e1 e2 = .ok r) :
    r.cnt = globalTally e1 e2 ∧
    r.lines.map Prod.fst = e1.categories.map Prod.fst := by
  obtain ⟨_, _, _, hlines, hcnt, _⟩ := compare_ok_spec e1 e2 r hok
  constructor
  · rw [hcnt, hlines, tallyOfLines_linesOf]
  · rw [hlines]
    simp [linesOf, List.map_map, Function.comp_def]

/-- Claim C1, witness for the amended theorem at the engagement-only pair. -/
theorem claim1_witness :
    compare_teacher_evals engA engA = .ok RESeng ∧
    (RESeng.cnt = globalTally engA engA ∧
      RESeng.lines.map Prod.fst = engA.categories.map Prod.fst) :=
  ⟨by with_unfolding_all rfl,
    claim1_theorem engA engA RESeng (by with_unfolding_all rfl)⟩

/-- Claim C2: for well-formed matrices accepted and successfully scored by the
agreement engine, every per-code line satisfies
`both + neither + firstOnly + secondOnly = len(timeLabels)`. -/
theorem claim2_theorem (e1 e2 : TeacherObs) (r : CompareResult)
    (hw1 : WF e1) (hw2 : WF e2) (hok : compare_teacher_evals e1 e2 = .ok r) :
    ∀ pc ∈ r.lines, ∀ cl ∈ pc.2,
      cl.both + cl.neither + cl.firstOnly + cl.secondOnly = e1.times.length := by
  obtain ⟨hc, ht, _, hlines, _, _⟩ := compare_ok_spec e1 e2 r hok
  rw [hlines]
  intro pc hpc cl hcl
  rw [linesOf] at hpc
  obtain ⟨p, hp, rfl⟩ := List.mem_map.1 hpc
  obtain ⟨o, ho, rfl⟩ := List.mem_map.1 hcl
  obtain ⟨hl1, hf1⟩ := hw1 p hp o ho
  have hp2 : p ∈ e2.categories := hc ▸ hp
  obtain ⟨hl2, hf2⟩ := hw2 p hp2 o ho
  have hlen : (getRes e1.results p.1 o).length = (getRes e2.results p.1 o).length := by
    rw [hl1, hl2, ht]
  have hpart := bucket_partition (getRes e1.results p.1 o) (getRes e2.results p.1 o)
    hlen hf1 hf2
  simpa [mkCodeLine] using hpart.trans hl1

/-- Claim C2, witness at the specification's worked scenario. -/
theorem claim2_witness :
    WF exA ∧ WF exB ∧ compare_teacher_evals exA exB = .ok RESab ∧
    (∀ pc ∈ RESab.lines, ∀ cl ∈ pc.2,
      cl.both + cl.neither + cl.firstOnly + cl.secondOnly = exA.times.length) :=
  ⟨by decide, by decide, by with_unfolding_all rfl,
    claim2_theorem exA exB RESab (by decide) (by decide) (by with_unfolding_all rfl)⟩

/-- Claim C3: swapping the two inputs of a successful comparison succeeds and
swaps the global `first`/`second` counts while leaving `both`, `neither` and
the derived global percent agreement unchanged. -/
theorem claim3_theorem (e1 e2 : TeacherObs) (r : CompareResult)
    (hok : compare_teacher_evals e1 e2 = .ok r) :
    ∃ r', compare_teacher_evals e2 e1 = .ok r' ∧
      r'.cnt.both = r.cnt.both ∧ r'.cnt.neither = r.cnt.neither ∧
      r'.cnt.first = r.cnt.second ∧ r'.cnt.second = r.cnt.first ∧
      agreementPercent r'.cnt = agreementPercent r.cnt := by
  obtain ⟨hc, ht, hm, _, hcnt, hnz⟩ := compare_ok_spec e1 e2 r hok
  have hswap : exceptMap (processCategory e2 e1) e2.categories =
      .ok (r.lines.map (fun q => (q.1, q.2.map swapLine))) := by
    rw [← hc, exceptMap_map_rel (processCategory e1 e2) (processCategory e2 e1)
      (fun q => (q.1, q.2.map swapLine)) (processCategory_swap e1 e2) e1.categories, hm]
    rfl
  have htl := tallyOfLines_swap r.lines
  rw [← hcnt] at htl
  have hnz' : ¬((tallyOfLines (r.lines.map (fun q => (q.1, q.2.map swapLine)))).both +
      (tallyOfLines (r.lines.map (fun q => (q.1, q.2.map swapLine)))).neither +
      (tallyOfLines (r.lines.map (fun q => (q.1, q.2.map swapLine)))).first +
      (tallyOfLines (r.lines.map (fun q => (q.1, q.2.map swapLine)))).second = 0) := by
    rw [htl]
    intro h
    dsimp only at h
    exact hnz (by omega)
  refine ⟨_, compare_eval e2 e1 _ hc.symm ht.symm hswap hnz', ?_, ?_, ?_, ?_, ?_⟩ <;>
    simp only [htl]
  unfold agreementPercent
  ring_nf

/-- Claim C3, witness at the specification's worked scenario. -/
theorem claim3_witness :
    compare_teacher_evals exA exB = .ok RESab ∧
    (∃ r', compare_teacher_evals exB exA = .ok r' ∧
      r'.cnt.both = RESab.cnt.both ∧ r'.cnt.neither = RESab.cnt.neither ∧
      r'.cnt.first = RESab.cnt.second ∧ r'.cnt.second = RESab.cnt.first ∧
      agreementPercent r'.cnt = agreementPercent RESab.cnt) :=
  ⟨by with_unfolding_all rfl,
    claim3_theorem exA exB RESab (by with_unfolding_all rfl)⟩

/-- Claim C4: in every successful comparison, each produced per-code line
carries the overlap score
`min(100*sum(A[code])/totalA_in_category, 100*sum(B[code])/totalB_in_category)`,
where the totals sum all flags over all codes of that category per rater. -/
theorem claim4_theorem (e1 e2 : TeacherObs) (r : CompareResult)
    (hok : compare_teacher_evals e1 e2 = .ok r) :
    ∀ pc ∈ r.lines, ∀ cl ∈ pc.2,
      catTotal e1.results pc.1 ≠ 0 → catTotal e2.results pc.1 ≠ 0 →
      cl.overlap =
        min (100 * ((getRes e1.results pc.1 cl.code).sum : ℚ) / (catTotal e1.results pc.1 : ℚ))
          (100 * ((getRes e2.results pc.1 cl.code).sum : ℚ) / (catTotal e2.results pc.1 : ℚ)) := by
  obtain ⟨_, _, _, hlines, _, _⟩ := compare_ok_spec e1 e2 r hok
  rw [hlines]
  intro pc hpc cl hcl _ _
  rw [linesOf] at hpc
  obtain ⟨p, hp, rfl⟩ := List.mem_map.1 hpc
  obtain ⟨o, ho, rfl⟩ := List.mem_map.1 hcl
  simp only [mkCodeLine]
  rw [if_lt_eq_min]

/-- Claim C4, witness at the specification's worked scenario. -/
theorem claim4_witness :
    compare_teacher_evals exA exB = .ok RESab ∧
    ("X", [(⟨"a", 1, 0, 0, 1, 100⟩ : CodeLine)]) ∈ RESab.lines ∧
    (⟨"a", 1, 0, 0, 1, 100⟩ : CodeLine) ∈ [(⟨"a", 1, 0, 0, 1, 100⟩ : CodeLine)] ∧
    catTotal exA.results "X" ≠ 0 ∧ catTotal exB.results "X" ≠ 0 ∧
    (⟨"a", 1, 0, 0, 1, 100⟩ : CodeLine).overlap =
      min (100 * ((getRes exA.results "X" "a").sum : ℚ) / (catTotal exA.results "X" : ℚ))
        (100 * ((getRes exB.results "X" "a").sum : ℚ) / (catTotal exB.results "X" : ℚ)) :=
  ⟨by with_unfolding_all rfl, by with_unfolding_all decide, by decide,
    by decide, by decide,
    claim4_theorem exA exB RESab (by with_unfolding_all rfl)
      ("X", [⟨"a", 1, 0, 0, 1, 100⟩]) (by with_unfolding_all decide)
      ⟨"a", 1, 0, 0, 1, 100⟩ (by decide) (by decide) (by decide)⟩

/-- Claim C9: whenever the two matrices' schemas differ the engine fails with
an error carrying both schemas, and whenever the schemas agree but the time
sequences differ it fails with an error carrying both time sequences; no
result is produced. -/
theorem claim9_theorem (e1 e2 : TeacherObs) :
    (e1.categories ≠ e2.categories →
      compare_teacher_evals e1 e2 =
        .error (.categoriesMismatch e1.categories e2.categories)) ∧
    (e1.categories = e2.categories → e1.times ≠ e2.times →
      compare_teacher_evals e1 e2 = .error (.timesMismatch e1.times e2.times)) := by
  constructor
  · intro h
    simp [compare_teacher_evals, h]
  · intro hc h
    simp [compare_teacher_evals, hc, h]

/-- Claim C9, witness: two matrices with different schemas. -/
theorem claim9_witness :
    exA.categories ≠ engA.categories ∧
    compare_teacher_evals exA engA =
      .error (.categoriesMismatch exA.categories engA.categories) :=
  ⟨by decide, (claim9_theorem exA engA).1 (by decide)⟩

/-- Claim C10: a concrete pair of comparable matrices in which category `X`
(holding code `a`) has total flag count zero for the first rater; the engine
raises `ZeroDivisionError` and produces no result. -/
theorem claim10_theorem :
    zA.categories = zB.categories ∧ zA.times = zB.times ∧
    ("X", ["a"]) ∈ zA.categories ∧ catTotal zA.results "X" = 0 ∧
    catTotal zB.results "X" ≠ 0 ∧
    compare_teacher_evals zA zB = .error .zeroDivision :=
  ⟨rfl, rfl, by decide, by decide, by decide, by with_unfolding_all rfl⟩

/-- Claim C7, counterexample: the scenario's header rows have 5 and 6 cells,
so `parse_categories` fails on its equal-length assertion instead of
returning the claimed schema. -/
theorem claim7_counterexample :
    (["", "1. instructor", "", "2. Students", "Comments"] : List String).length = 5 ∧
    (["MIN", "Lec", "FUp", "CG", "O", ""] : List String).length = 6 ∧
    parse_categories ["", "1. instructor", "", "2. Students", "Comments"]
      ["MIN", "Lec", "FUp", "CG", "O", ""] = .error .assertLen := by
  refine ⟨rfl, rfl, ?_⟩
  decide

/-- Claim C7, amended: with the broad row padded by one trailing empty cell to
match the fine row's six columns, `parse_categories` returns the claimed
schema, with the time and comment columns dropped. -/
theorem claim7_theorem :
    parse_categories ["", "1. instructor", "", "2. Students", "Comments", ""]
      ["MIN", "Lec", "FUp", "CG", "O", ""] =
      .ok [("1. instructor", ["Lec", "FUp"]), ("2. Students", ["CG"])] := by
  with_unfolding_all rfl

theorem parseData_skip_blank (codes : List (String × String)) (line : List String)
    (h : line.head? = some "") :
    ∀ (pre rest : List (List String)) (times : List String) (res : ResultsMap),
      parseData codes (pre ++ line :: rest) times res =
        parseData codes (pre ++ rest) times res := by
  intro pre
  induction pre with
  | nil =>
    intro rest times res
    simp [parseData, h]
  | cons p pre ih =>
    intro rest times res
    rw [List.cons_append, List.cons_append, parseData, parseData]
    cases hp : p.head? with
    | none => simp only [hp]
    | some t =>
      simp only [hp]
      by_cases ht : t = ""
      · rw [if_pos ht, if_pos ht]
        exact ih rest times res
      · rw [if_neg ht, if_neg ht]
        cases hpr : processRow codes p 1 res with
        | error e => simp only [hpr]
        | ok res' =>
          simp only [hpr]
          exact ih rest (times ++ [normTime t]) res'

/-- Claim C8: any data row whose leading time-block cell is the empty string
is skipped entirely, wherever it occurs among the data rows; parsing with and
without that row yields identical results (no time label, no flags). -/
theorem claim8_theorem (r0 hb hf line : List String) (pre rest : List (List String))
    (h : line.head? = some "") :
    parse (r0 :: hb :: hf :: (pre ++ line :: rest)) =
      parse (r0 :: hb :: hf :: (pre ++ rest)) := by
  simp only [parse]
  cases hpc : parse_categories hb hf with
  | error e => rfl
  | ok cats =>
    simp only [hpc]
    rw [parseData_skip_blank (flatCodes cats) line h pre rest]

/-- Claim C8, witness: a blank-time spacer row `["", "y"]` in the middle of
the data rows does not change the parse result. -/
theorem claim8_witness :
    (["", "y"] : List String).head? = some "" ∧
    parse [["t"], ["", "A"], ["MIN", "a"], ["1", "x"], ["", "y"], ["2", "z"]] =
      parse [["t"], ["", "A"], ["MIN", "a"], ["1", "x"], ["2", "z"]] :=
  ⟨rfl, claim8_theorem ["t"] ["", "A"] ["MIN", "a"] ["", "y"]
    [["1", "x"]] [["2", "z"]] rfl⟩

theorem alookup_setdefaultAppend (cats : List (String × List String)) (k v k' : String) :
    alookup (setdefaultAppend cats k v) k' =
      if k' = k then some ((alookup cats k).getD [] ++ [v]) else alookup cats k' := by
  induction cats with
  | nil =>
    by_cases h : k' = k
    · subst h; simp [setdefaultAppend, alookup]
    · simp [setdefaultAppend, alookup, h, Ne.symm h]
  | cons hd rest ih =>
    obtain ⟨k0, vs0⟩ := hd
    by_cases h1 : k0 = k
    · subst h1
      by_cases h2 : k' = k0
      · subst h2; simp [setdefaultAppend, alookup]
      · simp [setdefaultAppend, alookup, h2, Ne.symm h2]
    · by_cases h2 : k0 = k'
      · subst h2
        simp [setdefaultAppend, alookup, h1]
      · simp [setdefaultAppend, alookup, h1, h2, ih]

theorem keys_setdefaultAppend (cats : List (String × List String)) (k v : String) :
    (setdefaultAppend cats k v).map Prod.fst =
      if k ∈ cats.map Prod.fst then cats.map Prod.fst else cats.map Prod.fst ++ [k] := by
  induction cats with
  | nil => simp [setdefaultAppend]
  | cons hd rest ih =>
    obtain ⟨k0, vs0⟩ := hd
    by_cases h : k0 = k
    · subst h; simp [setdefaultAppend]
    · by_cases h2 : k ∈ rest.map Prod.fst <;>
        simp [setdefaultAppend, h, Ne.symm h, h2, ih]

theorem keys_buildCats_nodup :
    ∀ (pairs : List (String × String)) (cats : List (String × List String)),
      (cats.map Prod.fst).Nodup → ((buildCats cats pairs).map Prod.fst).Nodup := by
  intro pairs
  induction pairs with
  | nil => intro cats h; exact h
  | cons pr rest ih =>
    obtain ⟨b, f⟩ := pr
    intro cats h
    by_cases hb : b.startsWith "Comment"
    · simp only [buildCats, if_pos hb]
      exact ih cats h
    · simp only [buildCats, if_neg hb]
      refine ih (setdefaultAppend cats b f) ?_
      rw [keys_setdefaultAppend]
      by_cases hm : b ∈ cats.map Prod.fst
      · rw [if_pos hm]; exact h
      · rw [if_neg hm]
        simp [List.nodup_append, h, hm]

theorem alookup_buildCats :
    ∀ (pairs : List (String × String)) (cats : List (String × List String)) (k : String),
      alookup (buildCats cats pairs) k = combineSel (alookup cats k) (selCodes pairs k) := by
  intro pairs
  induction pairs with
  | nil =>
    intro cats k
    simp only [buildCats, selCodes, List.filter_nil, List.map_nil]
    cases alookup cats k <;> simp [combineSel]
  | cons pr rest ih =>
    obtain ⟨b, f⟩ := pr
    intro cats k
    by_cases hb : b.startsWith "Comment"
    · simp only [buildCats, if_pos hb]
      rw [ih]
      simp [selCodes, hb]
    · simp only [buildCats, if_neg hb]
      rw [ih, alookup_setdefaultAppend]
      by_cases hk : k = b
      · subst hk
        rw [if_pos rfl]
        have hsel : selCodes ((k, f) :: rest) k = f :: selCodes rest k := by
          simp [selCodes, hb]
        rw [hsel]
        cases alookup cats k <;> simp [combineSel]
      · rw [if_neg hk]
        have hsel : selCodes ((b, f) :: rest) k = selCodes rest k := by
          simp [selCodes, Ne.symm hk]
        rw [hsel]

theorem alookup_mem {α : Type} :
    ∀ (cats : List (String × α)) (k : String) (vs : α),
      alookup cats k = some vs → (k, vs) ∈ cats := by
  intro cats
  induction cats with
  | nil => intro k vs h; cases h
  | cons hd rest ih =>
    obtain ⟨k0, vs0⟩ := hd
    intro k vs h
    by_cases h1 : k0 = k
    · subst h1
      rw [alookup, if_pos rfl] at h
      cases h
      exact List.mem_cons_self _ _
    · rw [alookup, if_neg h1] at h
      exact List.mem_cons_of_mem _ (ih k vs h)

theorem mem_alookup {α : Type} :
    ∀ (cats : List (String × α)) (k : String) (vs : α),
      (cats.map Prod.fst).Nodup → (k, vs) ∈ cats → alookup cats k = some vs := by
  intro cats
  induction cats with
  | nil => intro k vs _ h; cases h
  | cons hd rest ih =>
    obtain ⟨k0, vs0⟩ := hd
    intro k vs hnd hmem
    rcases List.mem_cons.1 hmem with heq | htail
    · cases heq
      rw [alookup, if_pos rfl]
    · have hk : k ∈ rest.map Prod.fst :=
        List.mem_map_of_mem Prod.fst htail
      have hnd' : k0 ∉ rest.map Prod.fst ∧ (rest.map Prod.fst).Nodup := by
        simpa [List.nodup_cons] using hnd
      have hne : k0 ≠ k := fun h => hnd'.1 (h ▸ hk)
      rw [alookup, if_neg hne]
      exact ih k vs hnd'.2 htail

theorem removeKey_ok :
    ∀ (cats cats' : List (String × List String)) (k : String),
      removeKey cats k = .ok cats' →
      ∃ pre vs post, cats = pre ++ (k, vs) :: post ∧ cats' = pre ++ post ∧
        k ∉ pre.map Prod.fst := by
  intro cats
  induction cats with
  | nil => intro cats' k h; cases h
  | cons hd rest ih =>
    obtain ⟨k0, vs0⟩ := hd
    intro cats' k h
    by_cases h1 : k0 = k
    · subst h1
      rw [removeKey, if_pos rfl] at h
      cases h
      exact ⟨[], vs0, rest, rfl, rfl, by simp⟩
    · rw [removeKey, if_neg h1] at h
      cases hr : removeKey rest k with
      | error e => rw [hr] at h; cases h
      | ok r =>
        rw [hr] at h
        cases h
        obtain ⟨pre, vs, post, hcats, hr', hpre⟩ := ih r k hr
        refine ⟨(k0, vs0) :: pre, vs, post, ?_, ?_, ?_⟩
        · rw [hcats]; rfl
        · rw [hr']; rfl
        · simp [hpre, Ne.symm h1]

theorem alookup_append_left {α : Type} :
    ∀ (as bs : List (String × α)) (k : String) (v : α),
      alookup as k = some v → alookup (as ++ bs) k = some v := by
  intro as
  induction as with
  | nil => intro bs k v h; cases h
  | cons hd rest ih =>
    obtain ⟨k0, v0⟩ := hd
    intro bs k v h
    by_cases h1 : k0 = k
    · rw [alookup, if_pos h1] at h
      cases h
      rw [List.cons_append, alookup, if_pos h1]
    · rw [alookup, if_neg h1] at h
      rw [List.cons_append, alookup, if_neg h1]
      exact ih bs k v h

theorem alookup_append_right {α : Type} :
    ∀ (as bs : List (String × α)) (k : String),
      alookup as k = none → alookup (as ++ bs) k = alookup bs k := by
  intro as
  induction as with
  | nil => intro bs k _; rfl
  | cons hd rest ih =>
    obtain ⟨k0, v0⟩ := hd
    intro bs k h
    by_cases h1 : k0 = k
    · rw [alookup, if_pos h1] at h; cases h
    · rw [alookup, if_neg h1] at h
      rw [List.cons_append, alookup, if_neg h1]
      exact ih bs k h

theorem parse_categories_ok_parts (hb hf : List String)
    (cats : List (String × List String)) (hok : parse_categories hb hf = .ok cats) :
    hb.length = hf.length ∧
    ∃ pre vs post,
      buildCats [] ((forwardFill "Time" hb).zip hf) = pre ++ ("Time", vs) :: post ∧
      cats = pre ++ post ∧ "Time" ∉ pre.map Prod.fst := by
  unfold parse_categories at hok
  split at hok
  · rename_i hlen
    exact ⟨hlen, removeKey_ok _ cats "Time" hok⟩
  · cases hok

theorem parse_categories_keys_nodup (hb hf : List String)
    (cats : List (String × List String)) (hok : parse_categories hb hf = .ok cats) :
    (cats.map Prod.fst).Nodup ∧ "Time" ∉ cats.map Prod.fst := by
  obtain ⟨-, pre, vs, post, hbuild, hcats, -⟩ := parse_categories_ok_parts hb hf cats hok
  have hnd : ((buildCats [] ((forwardFill "Time" hb).zip hf)).map Prod.fst).Nodup :=
    keys_buildCats_nodup _ [] (by simp)
  rw [hbuild] at hnd
  have hsub : List.Sublist (pre ++ post) (pre ++ ("Time", vs) :: post) :=
    List.Sublist.append_left (List.sublist_cons_self _ _) _
  constructor
  · rw [hcats]
    exact hnd.sublist (hsub.map Prod.fst)
  · rw [hcats, List.map_append]
    rw [List.map_append, List.map_cons, List.nodup_append] at hnd
    intro hmem
    rcases List.mem_append.1 hmem with hl | hr
    · exact hnd.2.2 hl (List.mem_cons_self _ _)
    · exact (List.nodup_cons.1 hnd.2.1).1 hr

theorem parse_categories_alookup (hb hf : List String)
    (cats : List (String × List String)) (hok : parse_categories hb hf = .ok cats)
    (k : String) (hk : k ≠ "Time") :
    alookup cats k = combineSel none (selCodes ((forwardFill "Time" hb).zip hf) k) := by
  obtain ⟨-, pre, vs, post, hbuild, hcats, -⟩ := parse_categories_ok_parts hb hf cats hok
  have hb2 := alookup_buildCats ((forwardFill "Time" hb).zip hf) [] k
  rw [hbuild] at hb2
  have halk : alookup cats k = alookup (pre ++ ("Time", vs) :: post) k := by
    rw [hcats]
    cases hp : alookup pre k with
    | some v =>
      rw [alookup_append_left pre post k v hp, alookup_append_left pre _ k v hp]
    | none =>
      rw [alookup_append_right pre post k hp, alookup_append_right pre _ k hp]
      rw [alookup, if_neg (fun h => hk h.symm)]
  rw [halk, hb2]
  rfl

theorem combineSel_none_eq_some (l vs : List String) :
    combineSel none l = some vs → vs = l ∧ l ≠ [] := by
  cases l with
  | nil => intro h; cases h
  | cons x xs =>
    intro h
    have h' : some (x :: xs) = some vs := h
    cases h'
    exact ⟨rfl, List.cons_ne_nil x xs⟩

/-- Claim C5, counterexample: in `parse_categories ["", "1. instructor"]
["MIN", "Lec"]` the code `MIN` sits under the forward-filled label `Time`,
which does not start with `Comment`, yet `MIN` appears in no category's code
list of the result, because the sentinel `Time` entry is deleted. -/
theorem claim5_counterexample :
    forwardFill "Time" ["", "1. instructor"] = ["Time", "1. instructor"] ∧
    "Time".startsWith "Comment" = false ∧
    parse_categories ["", "1. instructor"] ["MIN", "Lec"] =
      .ok [("1. instructor", ["Lec"])] ∧
    (∀ p ∈ [("1. instructor", ["Lec"])], "MIN" ∉ p.2) := by
  refine ⟨by with_unfolding_all rfl, by with_unfolding_all rfl,
    by with_unfolding_all rfl, by decide⟩

/-- Claim C5, amended: for every header pair accepted by `parse_categories`,
every fine-row code whose forward-filled broad label neither starts with
`Comment` nor equals the sentinel `Time` lands in exactly one category's code
list (category names are pairwise distinct, and each category's list consists
precisely of its columns' codes in original column order), while codes under
`Comment`-prefixed labels and under the deleted `Time` sentinel never appear. -/
theorem claim5_theorem (hb hf : List String) (cats : List (String × List String))
    (hok : parse_categories hb hf = .ok cats) :
    (cats.map Prod.fst).Nodup ∧
    (∀ k vs, (k, vs) ∈ cats →
      k.startsWith "Comment" = false ∧ k ≠ "Time" ∧
      vs = selCodes ((forwardFill "Time" hb).zip hf) k) ∧
    (∀ b f, (b, f) ∈ (forwardFill "Time" hb).zip hf →
      b.startsWith "Comment" = false → b ≠ "Time" →
      ∃ vs, (b, vs) ∈ cats ∧ f ∈ vs) := by
  obtain ⟨hnd, hT⟩ := parse_categories_keys_nodup hb hf cats hok
  refine ⟨hnd, ?_, ?_⟩
  · intro k vs hmem
    have hkT : k ≠ "Time" := by
      intro h
      subst h
      exact hT (List.mem_map_of_mem Prod.fst hmem)
    have hl : alookup cats k = some vs := mem_alookup cats k vs hnd hmem
    rw [parse_categories_alookup hb hf cats hok k hkT] at hl
    obtain ⟨hvs, hne⟩ := combineSel_none_eq_some _ vs hl
    refine ⟨?_, hkT, hvs⟩
    obtain ⟨f, hf2⟩ := List.exists_mem_of_ne_nil _ hne
    rw [selCodes] at hf2
    obtain ⟨p, hp, -⟩ := List.mem_map.1 hf2
    have hpred := (List.mem_filter.1 hp).2
    have hk : p.1 = k := by
      simpa using (Bool.and_elim_right hpred)
    rw [← hk]
    simpa using Bool.and_elim_left hpred
  · intro b f hmem hcom hbT
    have hf2 : f ∈ selCodes ((forwardFill "Time" hb).zip hf) b := by
      rw [selCodes]
      refine List.mem_map_of_mem Prod.snd (List.mem_filter.2 ⟨hmem, ?_⟩)
      simp [hcom]
    have hl : alookup cats b = some (selCodes ((forwardFill "Time" hb).zip hf) b) := by
      rw [parse_categories_alookup hb hf cats hok b hbT]
      cases hsel : selCodes ((forwardFill "Time" hb).zip hf) b with
      | nil => rw [hsel] at hf2; cases hf2
      | cons x xs => rfl
    exact ⟨_, alookup_mem cats b _ hl, hf2⟩

/-- Claim C5, witness: a three-column header whose middle column is a real
category and whose last column is a comment. -/
theorem claim5_witness :
    parse_categories ["", "A", "Comments"] ["MIN", "a", "b"] = .ok [("A", ["a"])] ∧
    (([("A", ["a"])] : List (String × List String)).map Prod.fst).Nodup ∧
    (∀ k vs, (k, vs) ∈ [("A", ["a"])] →
      k.startsWith "Comment" = false ∧ k ≠ "Time" ∧
      vs = selCodes ((forwardFill "Time" ["", "A", "Comments"]).zip ["MIN", "a", "b"]) k) ∧
    (∀ b f, (b, f) ∈ (forwardFill "Time" ["", "A", "Comments"]).zip ["MIN", "a", "b"] →
      b.startsWith "Comment" = false → b ≠ "Time" →
      ∃ vs, (b, vs) ∈ [("A", ["a"])] ∧ f ∈ vs) := by
  have hok : parse_categories ["", "A", "Comments"] ["MIN", "a", "b"] =
      .ok [("A", ["a"])] := by with_unfolding_all rfl
  have h := claim5_theorem ["", "A", "Comments"] ["MIN", "a", "b"] [("A", ["a"])] hok
  exact ⟨hok, h.1, h.2.1, h.2.2⟩

theorem alookup_updAppend (d : List (String × List Nat)) (k : String) (v : Nat) (k' : String) :
    alookup (updAppend d k v) k' =
      if k' = k then some ((alookup d k).getD [] ++ [v]) else alookup d k' := by
  induction d with
  | nil =>
    by_cases h : k' = k
    · subst h; simp [updAppend, alookup]
    · simp [updAppend, alookup, h, Ne.symm h]
  | cons hd rest ih =>
    obtain ⟨k0, vs0⟩ := hd
    by_cases h1 : k0 = k
    · subst h1
      by_cases h2 : k' = k0
      · subst h2; simp [updAppend, alookup]
      · simp [updAppend, alookup, h2, Ne.symm h2]
    · by_cases h2 : k0 = k'
      · subst h2
        simp [updAppend, alookup, h1]
      · simp [updAppend, alookup, h1, h2, ih]

theorem getRes_cons_eq (c1 : String) (d : List (String × List Nat)) (rest : ResultsMap)
    (c o : String) (h : c1 = c) :
    getRes ((c1, d) :: rest) c o = (alookup d o).getD [] := by
  simp [getRes, alookup, h]

theorem getRes_cons_ne (c1 : String) (d : List (String × List Nat)) (rest : ResultsMap)
    (c o : String) (h : ¬c1 = c) :
    getRes ((c1, d) :: rest) c o = getRes rest c o := by
  simp [getRes, alookup, h]

theorem getRes_outerUpd :
    ∀ (res res' : ResultsMap) (c0 o0 : String) (v : Nat),
      outerUpd res c0 o0 v = .ok res' → ∀ c o,
      getRes res' c o =
        if c = c0 ∧ o = o0 then getRes res c o ++ [v] else getRes res c o := by
  intro res
  induction res with
  | nil => intro res' c0 o0 v h; cases h
  | cons hd rest ih =>
    obtain ⟨c1, d⟩ := hd
    intro res' c0 o0 v h c o
    by_cases h1 : c1 = c0
    · rw [outerUpd, if_pos h1] at h
      cases h
      subst h1
      by_cases h2 : c1 = c
      · rw [getRes_cons_eq c1 _ rest c o h2, getRes_cons_eq c1 d rest c o h2,
          alookup_updAppend]
        by_cases h3 : o = o0
        · rw [if_pos h3, if_pos ⟨h2.symm, h3⟩, h3]
          simp
        · rw [if_neg h3, if_neg (fun hh => h3 hh.2)]
      · rw [getRes_cons_ne c1 _ rest c o h2, getRes_cons_ne c1 d rest c o h2]
        have : ¬(c = c1 ∧ o = o0) := fun hh => h2 hh.1.symm
        rw [if_neg this]
    · rw [outerUpd, if_neg h1] at h
      cases hr : outerUpd rest c0 o0 v with
      | error e => rw [hr] at h; cases h
      | ok r =>
        rw [hr] at h
        cases h
        by_cases h2 : c1 = c
        · rw [getRes_cons_eq c1 d r c o h2, getRes_cons_eq c1 d rest c o h2]
          have : ¬(c = c0 ∧ o = o0) := fun hh => h1 (hh.1 ▸ h2)
          rw [if_neg this]
        · rw [getRes_cons_ne c1 d r c o h2, getRes_cons_ne c1 d rest c o h2]
          exact ih r c0 o0 v hr c o

theorem processRow_length :
    ∀ (codes : List (String × String)) (line : List String) (pos : Nat)
      (res res' : ResultsMap), processRow codes line pos res = .ok res' →
      ∀ c o, (getRes res' c o).length =
        (getRes res c o).length + codes.countP (fun q => q.1 == c && q.2 == o) := by
  intro codes
  induction codes with
  | nil =>
    intro line pos res res' h c o
    cases h
    simp
  | cons q rest ih =>
    obtain ⟨c1, o1⟩ := q
    intro line pos res res' h c o
    rw [processRow] at h
    split at h
    · cases h
    · rename_i v hg
      split at h
      · cases h
      · rename_i res1 hu
        have hlen := ih line (pos + 1) res1 res' h c o
        have hupd := getRes_outerUpd res res1 c1 o1 (flagOf v) hu c o
        rw [List.countP_cons]
        by_cases hco : c = c1 ∧ o = o1
        · obtain ⟨hc1, ho1⟩ := hco
          have hb : ((c1 == c && o1 == o) = true) := by
            simp [hc1.symm, ho1.symm]
          rw [hlen, hupd, if_pos ⟨hc1, ho1⟩, hb]
          simp
          omega
        · have hb : ((c1 == c && o1 == o) = false) := by
            by_cases hc1 : c1 = c
            · have ho1 : ¬(o1 = o) := fun ho => hco ⟨hc1.symm, ho.symm⟩
              simp [hc1, ho1]
            · simp [hc1]
          rw [hlen, hupd, if_neg hco, hb]
          simp

theorem parseData_length (codes : List (String × String)) :
    ∀ (data : List (List String)) (times : List String) (res : ResultsMap)
      (times' : List String) (res' : ResultsMap),
      parseData codes data times res = .ok (times', res') →
      ∀ c o,
        (getRes res c o).length =
          codes.countP (fun q => q.1 == c && q.2 == o) * times.length →
        (getRes res' c o).length =
          codes.countP (fun q => q.1 == c && q.2 == o) * times'.length := by
  intro data
  induction data with
  | nil =>
    intro times res times' res' h c o hinv
    cases h
    exact hinv
  | cons line rest ih =>
    intro times res times' res' h c o hinv
    rw [parseData] at h
    split at h
    · cases h
    · rename_i t ht
      split at h
      · exact ih times res times' res' h c o hinv
      · split at h
        · cases h
        · rename_i res1 hp
          refine ih (times ++ [normTime t]) res1 times' res' h c o ?_
          have hrow := processRow_length codes line 1 res res1 hp c o
          rw [hrow, hinv, List.length_append]
          simp [Nat.mul_add]

theorem mem_flatCodes_fst (cats : List (String × List String)) :
    ∀ q ∈ flatCodes cats, q.1 ∈ cats.map Prod.fst := by
  induction cats with
  | nil => intro q hq; cases hq
  | cons hd rest ih =>
    obtain ⟨c1, codes1⟩ := hd
    intro q hq
    rw [flatCodes] at hq
    rcases List.mem_append.1 hq with hl | hr
    · obtain ⟨o, -, rfl⟩ := List.mem_map.1 hl
      simp
    · simp [ih q hr]

theorem flatCodes_countP_zero (cats : List (String × List String)) (c o : String)
    (h : c ∉ cats.map Prod.fst) :
    (flatCodes cats).countP (fun q => q.1 == c && q.2 == o) = 0 := by
  rw [List.countP_eq_zero]
  intro q hq
  have hf := mem_flatCodes_fst cats q hq
  have : ¬(q.1 = c) := fun hh => h (hh ▸ hf)
  simp [this]

theorem flatCodes_countP_one (cats : List (String × List String)) :
    ∀ (c : String) (codes : List String) (o : String),
      (cats.map Prod.fst).Nodup → (c, codes) ∈ cats → codes.Nodup → o ∈ codes →
      (flatCodes cats).countP (fun q => q.1 == c && q.2 == o) = 1 := by
  induction cats with
  | nil => intro c codes o _ hmem; cases hmem
  | cons hd rest ih =>
    obtain ⟨c1, codes1⟩ := hd
    intro c codes o hnd hmem hcnd ho
    have hnd' : c1 ∉ rest.map Prod.fst ∧ (rest.map Prod.fst).Nodup := by
      simpa [List.nodup_cons] using hnd
    rw [flatCodes, List.countP_append]
    rcases List.mem_cons.1 hmem with heq | htail
    · injection heq with he1 he2
      subst he1
      subst he2
      have hz : (flatCodes rest).countP (fun q => q.1 == c && q.2 == o) = 0 :=
        flatCodes_countP_zero rest c o hnd'.1
      rw [hz, List.countP_map]
      have : (codes.countP ((fun q => q.1 == c && q.2 == o) ∘ fun o2 => (c, o2))) =
          codes.countP (fun o2 => o2 == o) := by
        apply List.countP_congr
        intro o2 _
        simp [Function.comp]
      rw [this]
      have := List.count_eq_one_of_mem hcnd ho
      simpa [List.count] using this
    · have hc : c ∈ rest.map Prod.fst := List.mem_map_of_mem Prod.fst htail
      have hne : ¬(c1 = c) := fun hh => hnd'.1 (hh ▸ hc)
      have hz : (codes1.map (fun o2 => (c1, o2))).countP
          (fun q => q.1 == c && q.2 == o) = 0 := by
        rw [List.countP_eq_zero]
        intro q hq
        obtain ⟨o2, -, rfl⟩ := List.mem_map.1 hq
        simp [hne]
      rw [hz, ih c codes o hnd'.2 htail hcnd ho]

theorem getRes_init :
    ∀ (l : ResultsMap), (∀ p ∈ l, p.2 = ([] : List (String × List Nat))) →
      ∀ c o, getRes l c o = [] := by
  intro l
  induction l with
  | nil => intro _ c o; rfl
  | cons hd rest ih =>
    obtain ⟨c1, d⟩ := hd
    intro h c o
    have hd1 : d = [] := h (c1, d) (List.mem_cons_self _ _)
    by_cases h1 : c1 = c
    · rw [getRes_cons_eq c1 d rest c o h1, hd1]
      rfl
    · rw [getRes_cons_ne c1 d rest c o h1]
      exact ih (fun p hp => h p (List.mem_cons_of_mem _ hp)) c o

/-- Claim C6, counterexample: a parsed file whose category `A` lists the code
`a` twice; the parse succeeds, but the stored flag sequence for `(A, a)` has
length 2 while there is only one time label, because both columns append into
the same `defaultdict` entry. -/
theorem claim6_counterexample :
    parse [["t"], ["", "A", ""], ["MIN", "a", "a"], ["1", "x", ""]] =
      .ok ⟨[("A", ["a", "a"])], ["1"], [("A", [("a", [1, 0])])]⟩ ∧
    (getRes [("A", [("a", [1, 0])])] "A" "a").length = 2 ∧
    (["1"] : List String).length = 1 :=
  ⟨by with_unfolding_all rfl, rfl, rfl⟩

/-- Claim C6, amended: for every successfully parsed row list whose categories
list each observation code at most once, every stored flag sequence has length
exactly the number of time labels. -/
theorem claim6_theorem (rows : List (List String)) (M : TeacherObs)
    (hok : parse rows = .ok M) (hnd : ∀ p ∈ M.categories, p.2.Nodup) :
    ∀ p ∈ M.categories, ∀ o ∈ p.2,
      (getRes M.results p.1 o).length = M.times.length := by
  rcases rows with _ | ⟨r0, _ | ⟨hb, _ | ⟨hf, data⟩⟩⟩
  · cases hok
  · cases hok
  · cases hok
  · simp only [parse] at hok
    split at hok
    · cases hok
    · rename_i cats hpc
      split at hok
      · cases hok
      · rename_i times res hpd
        cases hok
        intro p hp o ho
        obtain ⟨c, codes⟩ := p
        have hkeys := (parse_categories_keys_nodup hb hf cats hpc).1
        have hcount := flatCodes_countP_one cats c codes o hkeys hp
          (hnd (c, codes) hp) ho
        have hinit : getRes ((cats.filter (fun p => p.1 ≠ "")).map
            (fun p => (p.1, []))) c o = [] := by
          refine getRes_init _ ?_ c o
          intro q hq
          obtain ⟨p2, -, rfl⟩ := List.mem_map.1 hq
          rfl
        have := parseData_length (flatCodes cats) data []
          ((cats.filter (fun p => p.1 ≠ "")).map (fun p => (p.1, []))) times res hpd c o
          (by rw [hinit]; simp)
        rw [this, hcount]
        simp

/-- Claim C6, witness: a two-row file with one category and one code. -/
theorem claim6_witness :
    parse [["t"], ["", "A"], ["MIN", "a"], ["1", "x"], ["2", ""]] =
      .ok ⟨[("A", ["a"])], ["1", "2"], [("A", [("a", [1, 0])])]⟩ ∧
    (∀ p ∈ ([("A", ["a"])] : List (String × List String)), p.2.Nodup) ∧
    (∀ p ∈ ([("A", ["a"])] : List (String × List String)), ∀ o ∈ p.2,
      (getRes [("A", [("a", [1, 0])])] p.1 o).length = (["1", "2"] : List String).length) :=
  ⟨by with_unfolding_all rfl, by decide,
    claim6_theorem [["t"], ["", "A"], ["MIN", "a"], ["1", "x"], ["2", ""]]
      ⟨[("A", ["a"])], ["1", "2"], [("A", [("a", [1, 0])])]⟩
      (by with_unfolding_all rfl) (by decide)⟩
